import Mathlib

/-
Verification of the Hungarian-loss reduction core (src/hungarian_loss/steps.py)
against its specification.

The scalar type of cost matrices is a parameter K, any linearly ordered
commutative ring (the source computes with finite 16-bit floats; all the spec
test vectors are small integers, on which float16 arithmetic is exact, and the
concrete evaluations below instantiate K with the integers).  A single matrix
is modelled as a function on Fin indices; the source operates on 3D tensors
with a leading batch axis that its own broadcasting only supports for batch
size 1, and the spec directs the core to be modelled as single-matrix.
The two while loops of the source (scratch_matrix and reduce_matrix) are
embedded with an explicit fuel argument and an Option result: a none result
means the fuel was exhausted before the loop condition turned false.
-/

namespace HungarianLoss

variable {K : Type} [LinearOrderedCommRing K]

/-- Minimum of a list, as computed by an elementwise reduction (tf.reduce_min);
the empty list is given the junk value 0, matching no source behaviour (the
source never reduces an empty axis). -/
def listMin : List K → K
  | [] => 0
  | [a] => a
  | a :: b :: l => min a (listMin (b :: l))

/-- Maximum of a list of counts (tf.reduce_max over nonnegative integers). -/
def listMaxN (l : List ℕ) : ℕ := l.foldr max 0

/-- A single cost matrix with r rows and c columns. -/
abbrev Mat (K : Type) (r c : ℕ) := Fin r → Fin c → K

/-- A matrix-shaped boolean mask. -/
abbrev BMask (r c : ℕ) := Fin r → Fin c → Bool

/-- The entries of row i, in column order (the axis-2 slice reduced by
reduce_rows). -/
def rowVals (M : Mat K r c) (i : Fin r) : List K := (List.finRange c).map (M i)

/-- The entries of column j, in row order (the axis-1 slice reduced by
reduce_cols). -/
def colVals (M : Mat K r c) (j : Fin c) : List K := (List.finRange r).map (fun i => M i j)

/-- Embeds reduce_rows (steps.py lines 17-46): subtracts each row minimum from
every entry of the row.  The tf.cast of the result to float16 is value-neutral
here and is tracked by the Tensor wrapper reduce_rows_t below. -/
def reduce_rows (M : Mat K r c) : Mat K r c := fun i j => M i j - listMin (rowVals M i)

/-- Embeds reduce_cols (steps.py lines 49-75): subtracts each column minimum
from every entry of the column. -/
def reduce_cols (M : Mat K r c) : Mat K r c := fun i j => M i j - listMin (colVals M j)

/-- Modelled from the spec: the package constant ZERO (the hungarian_loss
package root is absent from src/); zero-presence is tested with
tf.math.equal(matrix, ZERO), so ZERO is the scalar zero. -/
def ZERO : K := 0

/-- The zero-presence mask tf.math.equal(matrix, ZERO) built by scratch_matrix
(steps.py line 152). -/
def zeros_mask [DecidableEq K] (M : Mat K r c) : BMask r c := fun i j => decide (M i j = ZERO)

/-- Modelled from the spec: count_zeros_in_rows of the ops module (absent from
src/), specified in section 4.1 as the per-row count of residual zeros of a
boolean zero-presence matrix. -/
def count_zeros_in_rows (zm : BMask r c) : Fin r → ℕ :=
  fun i => (List.finRange c).countP (fun j => zm i j)

/-- Modelled from the spec: count_zeros_in_cols of the ops module, the per
column count of residual zeros. -/
def count_zeros_in_cols (zm : BMask r c) : Fin c → ℕ :=
  fun j => (List.finRange r).countP (fun i => zm i j)

/-- Largest per-row residual-zero count (tf.reduce_max over the row counts). -/
def max_row_zeros (zm : BMask r c) : ℕ :=
  listMaxN ((List.finRange r).map (count_zeros_in_rows zm))

/-- Largest per-column residual-zero count. -/
def max_col_zeros (zm : BMask r c) : ℕ :=
  listMaxN ((List.finRange c).map (count_zeros_in_cols zm))

/-- Modelled from the spec: get_row_mask_with_max_zeros of the ops module,
specified in sections 4.1 and 9 as an argmax-like single selection; the mask
is true exactly on the first row attaining the maximal residual-zero count. -/
def get_row_mask_with_max_zeros (zm : BMask r c) : Fin r → Bool :=
  fun i =>
    decide ((List.finRange r).find? (fun k => count_zeros_in_rows zm k == max_row_zeros zm) = some i)

/-- Modelled from the spec: get_col_mask_with_max_zeros of the ops module,
symmetric to the row version. -/
def get_col_mask_with_max_zeros (zm : BMask r c) : Fin c → Bool :=
  fun j =>
    decide ((List.finRange c).find? (fun k => count_zeros_in_cols zm k == max_col_zeros zm) = some j)

/-- Modelled from the spec: expand_item_mask of the ops module applied to a row
mask, broadcasting a per-line mask over the matrix shape. -/
def expand_item_mask_row (m : Fin r → Bool) : BMask r c := fun i _ => m i

/-- Modelled from the spec: expand_item_mask applied to a column mask. -/
def expand_item_mask_col (m : Fin c → Bool) : BMask r c := fun _ j => m j

/-- Embeds the inner function scratch_row of scratch_matrix (steps.py lines
110-118): select the row with the most residual zeros, add it to the row mask,
and clear its residual zeros. -/
def scratch_row (zm : BMask r c) (rm : Fin r → Bool) (cm : Fin c → Bool) :
    BMask r c × (Fin r → Bool) × (Fin c → Bool) :=
  let sel := get_row_mask_with_max_zeros zm
  (fun i j => zm i j && !(expand_item_mask_row sel i j), fun i => rm i || sel i, cm)

/-- Embeds the inner function scratch_col of scratch_matrix (steps.py lines
120-128). -/
def scratch_col (zm : BMask r c) (rm : Fin r → Bool) (cm : Fin c → Bool) :
    BMask r c × (Fin r → Bool) × (Fin c → Bool) :=
  let sel := get_col_mask_with_max_zeros zm
  (fun i j => zm i j && !(expand_item_mask_col sel i j), rm, fun j => cm j || sel j)

/-- Embeds the loop body of scratch_matrix (steps.py lines 130-142): scratch a
row when the best row strictly beats the best column, otherwise a column. -/
def scratch_body (zm : BMask r c) (rm : Fin r → Bool) (cm : Fin c → Bool) :
    BMask r c × (Fin r → Bool) × (Fin c → Bool) :=
  if max_row_zeros zm > max_col_zeros zm then scratch_row zm rm cm else scratch_col zm rm cm

/-- Embeds the loop condition of scratch_matrix (steps.py lines 144-145):
tf.reduce_any of the residual zero-presence mask. -/
def any_zeros (zm : BMask r c) : Bool :=
  (List.finRange r).any (fun i => (List.finRange c).any (fun j => zm i j))

/-- Fuel-indexed unfolding of the tf.while_loop of scratch_matrix (steps.py
lines 148-156); none means the fuel ran out while residual zeros remained. -/
def scratch_loop {r c : ℕ} : ℕ → BMask r c → (Fin r → Bool) → (Fin c → Bool) →
    Option ((Fin r → Bool) × (Fin c → Bool))
  | 0, zm, rm, cm => if any_zeros zm then none else some (rm, cm)
  | fuel + 1, zm, rm, cm =>
    if any_zeros zm then
      let s := scratch_body zm rm cm
      scratch_loop fuel s.1 s.2.1 s.2.2
    else some (rm, cm)

/-- Embeds scratch_matrix (steps.py lines 78-158): run the scratch loop from
the zero-presence mask of the matrix and all-false line masks. -/
def scratch_matrix [DecidableEq K] (fuel : ℕ) (M : Mat K r c) :
    Option ((Fin r → Bool) × (Fin c → Bool)) :=
  scratch_loop fuel (zeros_mask M) (fun _ => false) (fun _ => false)

/-- The numeric cast of a boolean mask entry (tf.cast to the float dtype). -/
def boolToK (K : Type) [LinearOrderedCommRing K] (b : Bool) : K := if b then 1 else 0

/-- Embeds is_optimal_assignment (steps.py lines 161-208) at masks of one
shared dimension n: the number of scratched lines, computed as the sum of the
numeric casts of the two masks, equals n.  The entry assert of the source
compares the two mask dimensions, which the shared index type makes equal
here; the shape-checked form on untyped masks is is_optimal_assignment_shaped
below. -/
def is_optimal_assignment (K : Type) [LinearOrderedCommRing K] {n : ℕ}
    (rm cm : Fin n → Bool) : Bool :=
  decide ((n : K) = ((List.finRange n).map (fun i => boolToK K (rm i))).sum
    + ((List.finRange n).map (fun j => boolToK K (cm j))).sum)

/-- Count of true entries of a mask given as a list. -/
def count_true (l : List Bool) : ℕ := l.countP (fun b => b)

/-- Embeds is_optimal_assignment (steps.py lines 161-208) on shape-carrying
masks: the assert on line 202 compares the row-mask length with the
column-mask length, and a failed assert (modelled as none) aborts the call at
entry before any arithmetic. -/
def is_optimal_assignment_shaped (K : Type) [LinearOrderedCommRing K] (rm cm : List Bool) :
    Option Bool :=
  if rm.length = cm.length then
    some (decide ((rm.length : K) = (rm.map (boolToK K)).sum + (cm.map (boolToK K)).sum))
  else none

/-- Modelled from the spec: the package constant ONE (the hungarian_loss
package root is absent from src/), the scalar one used by the outline-minimum
sentinel expression of shift_zeros. -/
def ONE : K := 1

/-- The largest finite value of the float16 dtype, tf.float16.max, used by
shift_zeros as the sentinel that masks covered cells out of the outline
minimum (spec section 9 directs it to be the named maximal finite value of
the numeric type). -/
def F16_MAX : K := 65504

/-- All index pairs of an r by c matrix, in row-major order (the cell order of
the flattened tensor reduced by tf.reduce_min without an axis). -/
def all_cells (r c : ℕ) : List (Fin r × Fin c) :=
  (List.finRange r).flatMap (fun i => (List.finRange c).map (fun j => (i, j)))

/-- The cross mask of shift_zeros (steps.py lines 259-262): cells on a
scratched row and a scratched column, as numeric 0/1 values. -/
def cross_mask (K : Type) [LinearOrderedCommRing K] (rm : Fin r → Bool) (cm : Fin c → Bool) :
    Fin r → Fin c → K :=
  fun i j => boolToK K (rm i && cm j)

/-- The inline mask of shift_zeros (steps.py lines 263-273): cells on exactly
one scratched line. -/
def inline_mask (K : Type) [LinearOrderedCommRing K] (rm : Fin r → Bool) (cm : Fin c → Bool) :
    Fin r → Fin c → K :=
  fun i j => boolToK K ((rm i && !cm j) || (!rm i && cm j))

/-- The outline mask of shift_zeros (steps.py lines 274-279): cells on no
scratched line. -/
def outline_mask (K : Type) [LinearOrderedCommRing K] (rm : Fin r → Bool) (cm : Fin c → Bool) :
    Fin r → Fin c → K :=
  fun i j => boolToK K (!(rm i || cm j))

/-- The outline minimum of shift_zeros (steps.py lines 281-288): the global
minimum of the matrix with every non-outline cell replaced by the float16.max
sentinel. -/
def outline_min_value (M : Mat K r c) (rm : Fin r → Bool) (cm : Fin c → Bool) : K :=
  listMin ((all_cells r c).map
    (fun p => (ONE - outline_mask K rm cm p.1 p.2) * F16_MAX
      + M p.1 p.2 * outline_mask K rm cm p.1 p.2))

/-- Embeds shift_zeros (steps.py lines 211-304): add the outline minimum to
cross cells, keep inline cells, subtract it from outline cells, and pass the
two masks through unchanged. -/
def shift_zeros (M : Mat K r c) (rm : Fin r → Bool) (cm : Fin c → Bool) :
    Mat K r c × (Fin r → Bool) × (Fin c → Bool) :=
  let d := outline_min_value M rm cm
  (fun i j =>
    (M i j * cross_mask K rm cm i j + d * cross_mask K rm cm i j)
      + (M i j * inline_mask K rm cm i j
        + (M i j * outline_mask K rm cm i j - d * outline_mask K rm cm i j)),
   rm, cm)

/-- Fuel-indexed unfolding of the tf.while_loop of reduce_matrix (steps.py
lines 320-353): while the current cover is not optimal, re-reduce rows and
columns, rebuild the cover (with enough inner fuel for every cell), and exit
with the reduced matrix if the new cover is optimal, else shift the zeros and
continue.  none means the fuel ran out before the cover became optimal. -/
def reduce_loop [DecidableEq K] {n : ℕ} :
    ℕ → Mat K n n → (Fin n → Bool) → (Fin n → Bool) → Option (Mat K n n)
  | 0, M, rm, cm => if is_optimal_assignment K rm cm then some M else none
  | fuel + 1, M, rm, cm =>
    if is_optimal_assignment K rm cm then some M
    else
      let M1 := reduce_cols (reduce_rows M)
      match scratch_matrix (n * n) M1 with
      | none => none
      | some (rm1, cm1) =>
        if is_optimal_assignment K rm1 cm1 then reduce_loop fuel M1 rm1 cm1
        else
          let t := shift_zeros M1 rm1 cm1
          reduce_loop fuel t.1 t.2.1 t.2.2

/-- Embeds reduce_matrix (steps.py lines 307-355): run the reduction loop from
the input matrix and all-false line masks. -/
def reduce_matrix [DecidableEq K] {n : ℕ} (fuel : ℕ) (M : Mat K n n) : Option (Mat K n n) :=
  reduce_loop fuel M (fun _ => false) (fun _ => false)

/-- The matrix read back as a row-major list of rows, used to state concrete
evaluations. -/
def showMat (M : Mat K r c) : List (List K) :=
  (List.finRange r).map (fun i => (List.finRange c).map (M i))

/-- A line mask read back as a list of booleans. -/
def showMask {n : ℕ} (m : Fin n → Bool) : List Bool := (List.finRange n).map m

/-- The tensor element dtypes relevant to the reducers. -/
inductive DType
  | float16
  | float32
  | float64
  deriving DecidableEq

/-- A tensor value: a matrix of scalars together with its element dtype. -/
structure Tensor (K : Type) (r c : ℕ) where
  data : Mat K r c
  dtype : DType

/-- Embeds reduce_rows (steps.py lines 41-46) at the tensor level: the result
of the subtraction is wrapped in tf.cast(..., tf.float16), so the output
dtype is float16 whatever the input dtype was. -/
def reduce_rows_t (t : Tensor K r c) : Tensor K r c :=
  { data := reduce_rows t.data, dtype := DType.float16 }

/-- Embeds reduce_cols (steps.py lines 73-75) at the tensor level, with the
same tf.cast to float16. -/
def reduce_cols_t (t : Tensor K r c) : Tensor K r c :=
  { data := reduce_cols t.data, dtype := DType.float16 }

/-- A float16 scalar extended with the IEEE non-finite values, used to state
how non-finite entries flow through the reducers. -/
inductive FV
  | fin (x : ℚ)
  | nan
  | inf
  | ninf
  deriving DecidableEq

/-- IEEE-style subtraction on extended scalars: any NaN operand gives NaN, and
oppositely-signed infinities dominate finite values. -/
def FV.sub (x y : FV) : FV :=
  match x with
  | FV.nan => FV.nan
  | FV.inf => match y with
    | FV.nan => FV.nan
    | FV.inf => FV.nan
    | _ => FV.inf
  | FV.ninf => match y with
    | FV.nan => FV.nan
    | FV.ninf => FV.nan
    | _ => FV.ninf
  | FV.fin a => match y with
    | FV.nan => FV.nan
    | FV.inf => FV.ninf
    | FV.ninf => FV.inf
    | FV.fin b => FV.fin (a - b)

/-- NaN-propagating minimum on extended scalars. -/
def FV.min (x y : FV) : FV :=
  match x with
  | FV.nan => FV.nan
  | FV.ninf => match y with
    | FV.nan => FV.nan
    | _ => FV.ninf
  | FV.inf => y
  | FV.fin a => match y with
    | FV.nan => FV.nan
    | FV.inf => FV.fin a
    | FV.ninf => FV.ninf
    | FV.fin b => FV.fin (Min.min a b)

/-- List minimum on extended scalars, mirroring listMin. -/
def listMinFV : List FV → FV
  | [] => FV.fin 0
  | [a] => a
  | a :: b :: l => FV.min a (listMinFV (b :: l))

/-- A matrix of extended scalars. -/
abbrev MatF (r c : ℕ) := Fin r → Fin c → FV

/-- Embeds reduce_rows (steps.py lines 17-46) at the extended scalar type: the
same row-minimum subtraction, performed on values that may be non-finite.
No operation of the source tests finiteness. -/
def reduce_rows_f (M : MatF r c) : MatF r c :=
  fun i j => FV.sub (M i j) (listMinFV ((List.finRange c).map (M i)))

/-- The row-then-column reduction in the words of the spec (section 4.2):
first each row has its minimum subtracted from every entry, then each column
of the row-reduced matrix has its minimum subtracted from every entry.
Stated separately from reduce_rows and reduce_cols so the two can be
compared. -/
def row_col_reduce_spec (M : Mat K r c) : Mat K r c :=
  fun i j =>
    (fun i2 j2 => M i2 j2 - listMin ((List.finRange c).map (M i2))) i j
      - listMin ((List.finRange r).map
          (fun k => (fun i2 j2 => M i2 j2 - listMin ((List.finRange c).map (M i2))) k j))

/-- The outline cells in the words of the spec (section 4.5): the cells
covered by neither a scratched row nor a scratched column. -/
def outline_cells (r c : ℕ) (rm : Fin r → Bool) (cm : Fin c → Bool) : List (Fin r × Fin c) :=
  (all_cells r c).filter (fun p => !(rm p.1 || cm p.2))

/-- Delta in the words of the spec (section 4.5): the minimum value among the
outline cells. -/
def delta_spec (M : Mat K r c) (rm : Fin r → Bool) (cm : Fin c → Bool) : K :=
  listMin ((outline_cells r c rm cm).map (fun p => M p.1 p.2))

/- List-minimum facts. -/

theorem listMin_le : ∀ {l : List K} {x : K}, x ∈ l → listMin l ≤ x := by
  intro l
  induction l with
  | nil => intro x hx; cases hx
  | cons a t ih =>
    intro x hx
    cases t with
    | nil =>
      rcases List.mem_cons.mp hx with h | h
      · subst h; exact le_of_eq rfl
      · cases h
    | cons b t2 =>
      rcases List.mem_cons.mp hx with h | h
      · subst h; exact min_le_left _ _
      · exact le_trans (min_le_right _ _) (ih h)

theorem listMin_mem : ∀ {l : List K}, l ≠ [] → listMin l ∈ l := by
  intro l
  induction l with
  | nil => intro h; exact absurd rfl h
  | cons a t ih =>
    intro _
    cases t with
    | nil => exact List.mem_cons.mpr (Or.inl rfl)
    | cons b t2 =>
      rcases le_total a (listMin (b :: t2)) with h | h
      · have he : listMin (a :: b :: t2) = a := min_eq_left h
        rw [he]; exact List.mem_cons_self a _
      · have he : listMin (a :: b :: t2) = listMin (b :: t2) := min_eq_right h
        rw [he]; exact List.mem_cons_of_mem a (ih (List.cons_ne_nil b t2))

theorem listMin_all_eq {l : List K} {v : K} (h : ∀ x ∈ l, x = v) (hne : l ≠ []) :
    listMin l = v :=
  h _ (listMin_mem hne)

theorem mem_rowVals (M : Mat K r c) (i : Fin r) (j : Fin c) : M i j ∈ rowVals M i :=
  List.mem_map.mpr ⟨j, List.mem_finRange j, rfl⟩

theorem mem_colVals (M : Mat K r c) (i : Fin r) (j : Fin c) : M i j ∈ colVals M j :=
  List.mem_map.mpr ⟨i, List.mem_finRange i, rfl⟩

theorem mem_all_cells (p : Fin r × Fin c) : p ∈ all_cells r c := by
  rcases p with ⟨i, j⟩
  exact List.mem_flatMap.mpr
    ⟨i, List.mem_finRange i, List.mem_map.mpr ⟨j, List.mem_finRange j, rfl⟩⟩

theorem listMin_eq_zero {l : List K} (hne : l ≠ []) (hpos : ∀ x ∈ l, 0 ≤ x)
    (h0 : (0 : K) ∈ l) : listMin l = 0 :=
  le_antisymm (listMin_le h0) (hpos _ (listMin_mem hne))

/- Facts about the two reducers. -/

theorem reduce_rows_nonneg (M : Mat K r c) (i : Fin r) (j : Fin c) :
    0 ≤ reduce_rows M i j :=
  sub_nonneg.mpr (listMin_le (mem_rowVals M i j))

theorem reduce_cols_nonneg (M : Mat K r c) (i : Fin r) (j : Fin c) :
    0 ≤ reduce_cols M i j :=
  sub_nonneg.mpr (listMin_le (mem_colVals M i j))

theorem reduce_rows_row_zero (M : Mat K r c) (i : Fin r) (j0 : Fin c) :
    ∃ j, reduce_rows M i j = 0 := by
  have hne : rowVals M i ≠ [] := List.ne_nil_of_mem (mem_rowVals M i j0)
  obtain ⟨j, _, hj⟩ := List.mem_map.mp (listMin_mem hne)
  refine ⟨j, ?_⟩
  show M i j - listMin (rowVals M i) = 0
  rw [sub_eq_zero]
  exact hj

theorem reduce_cols_col_zero (M : Mat K r c) (j : Fin c) (i0 : Fin r) :
    ∃ i, reduce_cols M i j = 0 := by
  have hne : colVals M j ≠ [] := List.ne_nil_of_mem (mem_colVals M i0 j)
  obtain ⟨i, _, hi⟩ := List.mem_map.mp (listMin_mem hne)
  refine ⟨i, ?_⟩
  show M i j - listMin (colVals M j) = 0
  rw [sub_eq_zero]
  exact hi

theorem reduce_rows_fix (M : Mat K r c) (hpos : ∀ i j, 0 ≤ M i j)
    (hz : ∀ i, ∃ j, M i j = 0) : reduce_rows M = M := by
  funext i j
  have hne : rowVals M i ≠ [] := List.ne_nil_of_mem (mem_rowVals M i j)
  obtain ⟨j0, hj0⟩ := hz i
  have hmin : listMin (rowVals M i) = 0 := by
    refine listMin_eq_zero hne ?_ (hj0 ▸ mem_rowVals M i j0)
    intro x hx
    obtain ⟨j1, _, hj1⟩ := List.mem_map.mp hx
    exact hj1 ▸ hpos i j1
  show M i j - listMin (rowVals M i) = M i j
  rw [hmin, sub_zero]

theorem reduce_cols_fix (M : Mat K r c) (hpos : ∀ i j, 0 ≤ M i j)
    (hz : ∀ j, ∃ i, M i j = 0) : reduce_cols M = M := by
  funext i j
  have hne : colVals M j ≠ [] := List.ne_nil_of_mem (mem_colVals M i j)
  obtain ⟨i0, hi0⟩ := hz j
  have hmin : listMin (colVals M j) = 0 := by
    refine listMin_eq_zero hne ?_ (hi0 ▸ mem_colVals M i0 j)
    intro x hx
    obtain ⟨i1, _, hi1⟩ := List.mem_map.mp hx
    exact hi1 ▸ hpos i1 j
  show M i j - listMin (colVals M j) = M i j
  rw [hmin, sub_zero]

theorem rc_row_zero (M : Mat K r c) (i : Fin r) (j0 : Fin c) :
    ∃ j, reduce_cols (reduce_rows M) i j = 0 := by
  obtain ⟨j, hj⟩ := reduce_rows_row_zero M i j0
  refine ⟨j, ?_⟩
  have hmin : listMin (colVals (reduce_rows M) j) = 0 := by
    refine listMin_eq_zero (List.ne_nil_of_mem (mem_colVals (reduce_rows M) i j)) ?_
      (hj ▸ mem_colVals (reduce_rows M) i j)
    intro x hx
    obtain ⟨i1, _, hi1⟩ := List.mem_map.mp hx
    exact hi1 ▸ reduce_rows_nonneg M i1 j
  show reduce_rows M i j - listMin (colVals (reduce_rows M) j) = 0
  rw [hmin, sub_zero, hj]

theorem rc_col_zero (M : Mat K r c) (j : Fin c) (i0 : Fin r) :
    ∃ i, reduce_cols (reduce_rows M) i j = 0 :=
  reduce_cols_col_zero (reduce_rows M) j i0

/-- C3: applying reduce_rows and then reduce_cols to any finite square matrix
gives exactly the matrix described by the spec (subtract each row minimum,
then each column minimum of the row-reduced matrix); in the result every row
and every column contains a zero entry and every entry is nonnegative. -/
theorem C3_row_col_reduction {n : ℕ} (M : Mat K n n) :
    reduce_cols (reduce_rows M) = row_col_reduce_spec M ∧
    (∀ i j, 0 ≤ reduce_cols (reduce_rows M) i j) ∧
    (∀ i, ∃ j, reduce_cols (reduce_rows M) i j = 0) ∧
    (∀ j, ∃ i, reduce_cols (reduce_rows M) i j = 0) :=
  ⟨rfl, fun i j => reduce_cols_nonneg _ i j,
    fun i => rc_row_zero M i i, fun j => rc_col_zero M j j⟩

/-- C7: if the matrix produced by one reduce-rows-then-columns pass has a
scratch cover that is reported optimal (the exit state of reduce_matrix),
then re-running the reduce-and-cover step on it changes nothing: the reduced
matrix is a fixpoint of the reduction and the rebuilt cover and verdict are
the same. -/
theorem C7_reduce_cover_fixpoint [DecidableEq K] {n : ℕ} (M : Mat K n n) (fuel : ℕ)
    (rm cm : Fin n → Bool)
    (hs : scratch_matrix fuel (reduce_cols (reduce_rows M)) = some (rm, cm))
    (hopt : is_optimal_assignment K rm cm = true) :
    reduce_cols (reduce_rows (reduce_cols (reduce_rows M))) = reduce_cols (reduce_rows M) ∧
    scratch_matrix fuel (reduce_cols (reduce_rows (reduce_cols (reduce_rows M)))) = some (rm, cm) ∧
    is_optimal_assignment K rm cm = true := by
  have hfix1 : reduce_rows (reduce_cols (reduce_rows M)) = reduce_cols (reduce_rows M) :=
    reduce_rows_fix _ (fun i j => reduce_cols_nonneg _ i j) (fun i => rc_row_zero M i i)
  have hfix2 : reduce_cols (reduce_cols (reduce_rows M)) = reduce_cols (reduce_rows M) :=
    reduce_cols_fix _ (fun i j => reduce_cols_nonneg _ i j) (fun j => rc_col_zero M j j)
  have hfix : reduce_cols (reduce_rows (reduce_cols (reduce_rows M)))
      = reduce_cols (reduce_rows M) := by
    rw [hfix1, hfix2]
  exact ⟨hfix, by rw [hfix]; exact hs, hopt⟩

/-- C10: whatever the dtype of the input tensor, the results of reduce_rows
and reduce_cols carry dtype float16, because both wrap their subtraction in a
cast to float16. -/
theorem C10_float16_cast (t : Tensor K r c) :
    (reduce_rows_t t).dtype = DType.float16 ∧ (reduce_cols_t t).dtype = DType.float16 :=
  ⟨rfl, rfl⟩

/-- A 1-by-1 concrete matrix used as the C7 instance. -/
def W7 : Mat ℤ 1 1 := ![![5]]

/-- The scratch run on the reduced W7 terminates, stated through the computed
value. -/
theorem W7_scratch_run :
    scratch_matrix 1 (reduce_cols (reduce_rows W7))
      = some (((scratch_matrix 1 (reduce_cols (reduce_rows W7))).getD
            (fun _ => false, fun _ => false)).1,
          ((scratch_matrix 1 (reduce_cols (reduce_rows W7))).getD
            (fun _ => false, fun _ => false)).2) := rfl

/-- Witness for C7: the reduced 1-by-1 matrix, whose cover is optimal, is a
fixpoint of the reduce step. -/
theorem C7_reduce_cover_fixpoint_witness :
    reduce_cols (reduce_rows (reduce_cols (reduce_rows W7))) = reduce_cols (reduce_rows W7) :=
  (C7_reduce_cover_fixpoint W7 1
    ((scratch_matrix 1 (reduce_cols (reduce_rows W7))).getD (fun _ => false, fun _ => false)).1
    ((scratch_matrix 1 (reduce_cols (reduce_rows W7))).getD (fun _ => false, fun _ => false)).2
    W7_scratch_run (by decide)).1

/- The covering invariant of the scratch loop. -/

theorem any_zeros_of_cell {zm : BMask r c} (i : Fin r) (j : Fin c) (h : zm i j = true) :
    any_zeros zm = true :=
  List.any_eq_true.mpr ⟨i, List.mem_finRange i, List.any_eq_true.mpr ⟨j, List.mem_finRange j, h⟩⟩

theorem scratch_body_inv {zm : BMask r c} {rm : Fin r → Bool} {cm : Fin c → Bool}
    (i : Fin r) (j : Fin c)
    (h : zm i j = true ∨ rm i = true ∨ cm j = true) :
    (scratch_body zm rm cm).1 i j = true ∨ (scratch_body zm rm cm).2.1 i = true ∨
      (scratch_body zm rm cm).2.2 j = true := by
  rw [scratch_body]
  split
  · rcases h with h | h | h
    · cases hsel : get_row_mask_with_max_zeros zm i
      · left; simp [scratch_row, expand_item_mask_row, h, hsel]
      · right; left; simp [scratch_row, hsel]
    · right; left; simp [scratch_row, h]
    · right; right; simp [scratch_row, h]
  · rcases h with h | h | h
    · cases hsel : get_col_mask_with_max_zeros zm j
      · left; simp [scratch_col, expand_item_mask_col, h, hsel]
      · right; right; simp [scratch_col, hsel]
    · right; left; simp [scratch_col, h]
    · right; right; simp [scratch_col, h]

theorem scratch_loop_covers {r c : ℕ} :
    ∀ (fuel : ℕ) (zm : BMask r c) (rm : Fin r → Bool) (cm : Fin c → Bool)
      (rm2 : Fin r → Bool) (cm2 : Fin c → Bool),
      scratch_loop fuel zm rm cm = some (rm2, cm2) →
      ∀ i j, (zm i j = true ∨ rm i = true ∨ cm j = true) →
        rm2 i = true ∨ cm2 j = true := by
  intro fuel
  induction fuel with
  | zero =>
    intro zm rm cm rm2 cm2 hrun i j h
    rw [scratch_loop] at hrun
    by_cases hz : any_zeros zm = true
    · rw [if_pos hz] at hrun; exact absurd hrun (by simp)
    · rw [if_neg hz] at hrun
      have hp := Option.some.inj hrun
      have h1 : rm = rm2 := congrArg Prod.fst hp
      have h2 : cm = cm2 := congrArg Prod.snd hp
      rcases h with h | h | h
      · exact absurd (any_zeros_of_cell i j h) hz
      · left; rw [← h1]; exact h
      · right; rw [← h2]; exact h
  | succ f ih =>
    intro zm rm cm rm2 cm2 hrun i j h
    rw [scratch_loop] at hrun
    by_cases hz : any_zeros zm = true
    · rw [if_pos hz] at hrun
      exact ih _ _ _ _ _ hrun i j (scratch_body_inv i j h)
    · rw [if_neg hz] at hrun
      have hp := Option.some.inj hrun
      have h1 : rm = rm2 := congrArg Prod.fst hp
      have h2 : cm = cm2 := congrArg Prod.snd hp
      rcases h with h | h | h
      · exact absurd (any_zeros_of_cell i j h) hz
      · left; rw [← h1]; exact h
      · right; rw [← h2]; exact h

/-- C4: whenever the scratch loop of scratch_matrix terminates (the fuel-free
while loop exits), every zero entry of the matrix lies on a row marked true
in the returned row mask or a column marked true in the returned column
mask. -/
theorem C4_zero_cover [DecidableEq K] (M : Mat K r c) (fuel : ℕ)
    (rm : Fin r → Bool) (cm : Fin c → Bool)
    (hrun : scratch_matrix fuel M = some (rm, cm)) :
    ∀ i j, M i j = 0 → rm i = true ∨ cm j = true := by
  intro i j hz
  rw [scratch_matrix] at hrun
  refine scratch_loop_covers fuel _ _ _ rm cm hrun i j (Or.inl ?_)
  simp [zeros_mask, ZERO, hz]

/-- A 1-by-1 zero matrix used as the concrete C4 instance. -/
def W4 : Mat ℤ 1 1 := ![![0]]

/-- The scratch run on W4 terminates, stated through the computed value. -/
theorem W4_scratch_run :
    scratch_matrix 1 W4
      = some (((scratch_matrix 1 W4).getD (fun _ => false, fun _ => false)).1,
          ((scratch_matrix 1 W4).getD (fun _ => false, fun _ => false)).2) := rfl

/-- Witness for C4: at the 1-by-1 zero matrix, the scratch cover built with
fuel 1 covers the zero cell. -/
theorem C4_zero_cover_witness :
    ((scratch_matrix 1 W4).getD (fun _ => false, fun _ => false)).1 0 = true ∨
    ((scratch_matrix 1 W4).getD (fun _ => false, fun _ => false)).2 0 = true :=
  C4_zero_cover W4 1
    ((scratch_matrix 1 W4).getD (fun _ => false, fun _ => false)).1
    ((scratch_matrix 1 W4).getD (fun _ => false, fun _ => false)).2
    W4_scratch_run 0 0 rfl

/- Facts about the outline minimum and the shifted cells. -/

theorem mem_outline_cells {rm : Fin r → Bool} {cm : Fin c → Bool} {p : Fin r × Fin c} :
    p ∈ outline_cells r c rm cm ↔ (rm p.1 = false ∧ cm p.2 = false) := by
  rw [outline_cells, List.mem_filter]
  simp [mem_all_cells]

theorem sval_outline (M : Mat K r c) (rm : Fin r → Bool) (cm : Fin c → Bool)
    {i : Fin r} {j : Fin c} (hi : rm i = false) (hj : cm j = false) :
    (ONE - outline_mask K rm cm i j) * F16_MAX + M i j * outline_mask K rm cm i j = M i j := by
  simp [outline_mask, boolToK, hi, hj, ONE]

theorem sval_covered (M : Mat K r c) (rm : Fin r → Bool) (cm : Fin c → Bool)
    {i : Fin r} {j : Fin c} (h : rm i = true ∨ cm j = true) :
    (ONE - outline_mask K rm cm i j) * F16_MAX + M i j * outline_mask K rm cm i j = F16_MAX := by
  have hb : (rm i || cm j) = true := by rcases h with h | h <;> simp [h]
  simp [outline_mask, boolToK, hb, ONE]

theorem delta_spec_le (M : Mat K r c) (rm : Fin r → Bool) (cm : Fin c → Bool)
    {i : Fin r} {j : Fin c} (hi : rm i = false) (hj : cm j = false) :
    delta_spec M rm cm ≤ M i j :=
  listMin_le (List.mem_map.mpr ⟨(i, j), mem_outline_cells.mpr ⟨hi, hj⟩, rfl⟩)

theorem delta_spec_attained (M : Mat K r c) (rm : Fin r → Bool) (cm : Fin c → Bool)
    {i0 : Fin r} {j0 : Fin c} (h0 : rm i0 = false) (hc0 : cm j0 = false) :
    ∃ i j, rm i = false ∧ cm j = false ∧ delta_spec M rm cm = M i j := by
  have hne : (outline_cells r c rm cm).map (fun p => M p.1 p.2) ≠ [] :=
    List.ne_nil_of_mem (List.mem_map.mpr ⟨(i0, j0), mem_outline_cells.mpr ⟨h0, hc0⟩, rfl⟩)
  obtain ⟨p, hp, hv⟩ := List.mem_map.mp (listMin_mem hne)
  obtain ⟨h1, h2⟩ := mem_outline_cells.mp hp
  exact ⟨p.1, p.2, h1, h2, hv.symm⟩

theorem outline_min_value_eq (M : Mat K r c) (rm : Fin r → Bool) (cm : Fin c → Bool)
    (hB : ∀ i j, M i j ≤ F16_MAX) {i0 : Fin r} {j0 : Fin c}
    (h0 : rm i0 = false) (hc0 : cm j0 = false) :
    outline_min_value M rm cm = delta_spec M rm cm := by
  obtain ⟨i1, j1, hi1, hj1, hd⟩ := delta_spec_attained M rm cm h0 hc0
  refine le_antisymm ?_ ?_
  · rw [hd, outline_min_value]
    calc listMin ((all_cells r c).map (fun p => (ONE - outline_mask K rm cm p.1 p.2) * F16_MAX
          + M p.1 p.2 * outline_mask K rm cm p.1 p.2))
        ≤ (ONE - outline_mask K rm cm i1 j1) * F16_MAX + M i1 j1 * outline_mask K rm cm i1 j1 :=
          listMin_le (List.mem_map.mpr ⟨(i1, j1), mem_all_cells _, rfl⟩)
      _ = M i1 j1 := sval_outline M rm cm hi1 hj1
  · have hne : (all_cells r c).map (fun p => (ONE - outline_mask K rm cm p.1 p.2) * F16_MAX
        + M p.1 p.2 * outline_mask K rm cm p.1 p.2) ≠ [] :=
      List.ne_nil_of_mem (List.mem_map.mpr ⟨(i0, j0), mem_all_cells _, rfl⟩)
    obtain ⟨p, _, hv⟩ := List.mem_map.mp (listMin_mem hne)
    rw [outline_min_value, ← hv]
    by_cases hr : rm p.1 = false
    · by_cases hc : cm p.2 = false
      · rw [sval_outline M rm cm hr hc]
        exact delta_spec_le M rm cm hr hc
      · have hc2 : cm p.2 = true := by simp at hc; exact hc
        rw [sval_covered M rm cm (Or.inr hc2), hd]
        exact hB i1 j1
    · have hr2 : rm p.1 = true := by simp at hr; exact hr
      rw [sval_covered M rm cm (Or.inl hr2), hd]
      exact hB i1 j1

theorem shift_cell_outline (M : Mat K r c) (rm : Fin r → Bool) (cm : Fin c → Bool)
    {i : Fin r} {j : Fin c} (hi : rm i = false) (hj : cm j = false) :
    (shift_zeros M rm cm).1 i j = M i j - outline_min_value M rm cm := by
  show (M i j * cross_mask K rm cm i j + outline_min_value M rm cm * cross_mask K rm cm i j)
      + (M i j * inline_mask K rm cm i j
        + (M i j * outline_mask K rm cm i j
          - outline_min_value M rm cm * outline_mask K rm cm i j))
    = M i j - outline_min_value M rm cm
  simp [cross_mask, inline_mask, outline_mask, boolToK, hi, hj]

theorem shift_cell_cross (M : Mat K r c) (rm : Fin r → Bool) (cm : Fin c → Bool)
    {i : Fin r} {j : Fin c} (hi : rm i = true) (hj : cm j = true) :
    (shift_zeros M rm cm).1 i j = M i j + outline_min_value M rm cm := by
  show (M i j * cross_mask K rm cm i j + outline_min_value M rm cm * cross_mask K rm cm i j)
      + (M i j * inline_mask K rm cm i j
        + (M i j * outline_mask K rm cm i j
          - outline_min_value M rm cm * outline_mask K rm cm i j))
    = M i j + outline_min_value M rm cm
  simp [cross_mask, inline_mask, outline_mask, boolToK, hi, hj]

theorem shift_cell_inline (M : Mat K r c) (rm : Fin r → Bool) (cm : Fin c → Bool)
    {i : Fin r} {j : Fin c}
    (h : (rm i = true ∧ cm j = false) ∨ (rm i = false ∧ cm j = true)) :
    (shift_zeros M rm cm).1 i j = M i j := by
  show (M i j * cross_mask K rm cm i j + outline_min_value M rm cm * cross_mask K rm cm i j)
      + (M i j * inline_mask K rm cm i j
        + (M i j * outline_mask K rm cm i j
          - outline_min_value M rm cm * outline_mask K rm cm i j))
    = M i j
  rcases h with ⟨hi, hj⟩ | ⟨hi, hj⟩ <;>
    simp [cross_mask, inline_mask, outline_mask, boolToK, hi, hj]

/-- C5: on a matrix of nonnegative (finite float16, hence at most 65504)
entries, when at least one cell is covered by no scratched line, shift_zeros
subtracts delta, the minimum over the outline cells, from every outline cell,
adds it to every cross cell, leaves inline cells unchanged, passes both masks
through unchanged, and keeps every entry nonnegative. -/
theorem C5_shift_dual_update (M : Mat K r c) (rm : Fin r → Bool) (cm : Fin c → Bool)
    (hM : ∀ i j, 0 ≤ M i j) (hB : ∀ i j, M i j ≤ F16_MAX)
    (hout : ∃ i j, rm i = false ∧ cm j = false) :
    (shift_zeros M rm cm).2.1 = rm ∧ (shift_zeros M rm cm).2.2 = cm ∧
    outline_min_value M rm cm = delta_spec M rm cm ∧
    (∀ i j, rm i = false → cm j = false →
      (shift_zeros M rm cm).1 i j = M i j - delta_spec M rm cm) ∧
    (∀ i j, rm i = true → cm j = true →
      (shift_zeros M rm cm).1 i j = M i j + delta_spec M rm cm) ∧
    (∀ i j, (rm i = true ∧ cm j = false) ∨ (rm i = false ∧ cm j = true) →
      (shift_zeros M rm cm).1 i j = M i j) ∧
    (∀ i j, 0 ≤ (shift_zeros M rm cm).1 i j) := by
  obtain ⟨i0, j0, h0, hc0⟩ := hout
  have hδ : outline_min_value M rm cm = delta_spec M rm cm :=
    outline_min_value_eq M rm cm hB h0 hc0
  have hδ0 : 0 ≤ delta_spec M rm cm := by
    obtain ⟨i1, j1, _, _, hd⟩ := delta_spec_attained M rm cm h0 hc0
    rw [hd]; exact hM i1 j1
  refine ⟨rfl, rfl, hδ, ?_, ?_, ?_, ?_⟩
  · intro i j hi hj; rw [shift_cell_outline M rm cm hi hj, hδ]
  · intro i j hi hj; rw [shift_cell_cross M rm cm hi hj, hδ]
  · intro i j h; exact shift_cell_inline M rm cm h
  · intro i j
    cases hr : rm i <;> cases hc : cm j
    · rw [shift_cell_outline M rm cm hr hc, hδ]
      exact sub_nonneg.mpr (delta_spec_le M rm cm hr hc)
    · rw [shift_cell_inline M rm cm (Or.inr ⟨hr, hc⟩)]; exact hM i j
    · rw [shift_cell_inline M rm cm (Or.inl ⟨hr, hc⟩)]; exact hM i j
    · rw [shift_cell_cross M rm cm hr hc, hδ]
      exact add_nonneg (hM i j) hδ0

/-- A 2-by-2 concrete matrix used as the C5 instance. -/
def W5 : Mat ℤ 2 2 := ![![1, 2], ![3, 4]]

/-- Witness for C5: with no line scratched, every cell of W5 is an outline
cell and the shifted top-left cell is its value minus delta. -/
theorem C5_shift_dual_update_witness :
    (shift_zeros W5 (fun _ => false) (fun _ => false)).1 0 0
      = W5 0 0 - delta_spec W5 (fun _ => false) (fun _ => false) :=
  (C5_shift_dual_update W5 (fun _ => false) (fun _ => false)
    (by intro i j; fin_cases i <;> fin_cases j <;> decide)
    (by intro i j; fin_cases i <;> fin_cases j <;> decide)
    ⟨0, 0, rfl, rfl⟩).2.2.2.1 0 0 rfl rfl

/- The degenerate shift with no outline cell. -/

theorem outline_min_value_covered (M : Mat K r c) (rm : Fin r → Bool) (cm : Fin c → Bool)
    (hcov : ∀ i j, rm i = true ∨ cm j = true) (i0 : Fin r) (j0 : Fin c) :
    outline_min_value M rm cm = F16_MAX := by
  rw [outline_min_value]
  refine listMin_all_eq ?_
    (List.ne_nil_of_mem (List.mem_map.mpr ⟨(i0, j0), mem_all_cells _, rfl⟩))
  intro x hx
  obtain ⟨p, _, hv⟩ := List.mem_map.mp hx
  rw [← hv]
  exact sval_covered M rm cm (hcov p.1 p.2)

/-- A 1-by-1 concrete matrix used as the C8 instance. -/
def W8 : Mat ℤ 1 1 := ![![5]]

/-- C8 counterexample: shift_zeros invoked with every cell covered while the
cover is non-optimal (one row and one column scratched on a 1-by-1 matrix,
2 lines versus n = 1) raises no error; it silently returns a result, with
the float16.max sentinel added to the cross cell and the masks passed
through. -/
theorem C8_counterexample :
    showMat (shift_zeros W8 (fun _ => true) (fun _ => true)).1 = [[65509]] ∧
    showMask (shift_zeros W8 (fun _ => true) (fun _ => true)).2.1 = [true] ∧
    showMask (shift_zeros W8 (fun _ => true) (fun _ => true)).2.2 = [true] ∧
    is_optimal_assignment ℤ (fun _ : Fin 1 => true) (fun _ : Fin 1 => true) = false := by
  refine ⟨by decide, by decide, by decide, by decide⟩

/-- C8 as amended: when every cell lies on a scratched line, shift_zeros does
not surface any error; the outline minimum degenerates to the float16.max
sentinel, which is added to every cross cell, every other (inline) cell and
both masks are returned unchanged. -/
theorem C8_degenerate_silent (M : Mat K r c) (rm : Fin r → Bool) (cm : Fin c → Bool)
    (hcov : ∀ i j, rm i = true ∨ cm j = true) :
    (shift_zeros M rm cm).2.1 = rm ∧ (shift_zeros M rm cm).2.2 = cm ∧
    (∀ i j, rm i = true → cm j = true →
      (shift_zeros M rm cm).1 i j = M i j + F16_MAX) ∧
    (∀ i j, ¬(rm i = true ∧ cm j = true) → (shift_zeros M rm cm).1 i j = M i j) := by
  refine ⟨rfl, rfl, ?_, ?_⟩
  · intro i j hi hj
    rw [shift_cell_cross M rm cm hi hj, outline_min_value_covered M rm cm hcov i j]
  · intro i j h
    rcases hcov i j with hr | hc
    · have hcj : cm j = false := by
        cases hc2 : cm j
        · rfl
        · exact absurd ⟨hr, hc2⟩ h
      exact shift_cell_inline M rm cm (Or.inl ⟨hr, hcj⟩)
    · have hri : rm i = false := by
        cases hr2 : rm i
        · rfl
        · exact absurd ⟨hr2, hc⟩ h
      exact shift_cell_inline M rm cm (Or.inr ⟨hri, hc⟩)

/-- Witness for the amended C8: on W8 with both lines scratched, the cross
cell receives the sentinel. -/
theorem C8_degenerate_silent_witness :
    (shift_zeros W8 (fun _ => true) (fun _ => true)).1 0 0 = W8 0 0 + F16_MAX :=
  (C8_degenerate_silent W8 (fun _ => true) (fun _ => true)
    (fun i j => Or.inl rfl)).2.2.1 0 0 rfl rfl

/- The optimality criterion. -/

theorem sum_boolToK (l : List Bool) : (l.map (boolToK K)).sum = (count_true l : K) := by
  induction l with
  | nil => simp [count_true]
  | cons b t ih =>
    rw [List.map_cons, List.sum_cons, ih]
    simp only [count_true, List.countP_cons]
    cases b <;> simp [boolToK] <;> push_cast <;> ring

/-- C6: on any pair of masks of one dimension n (so the entry assert passes),
is_optimal_assignment returns true exactly when the number of true entries of
the row mask plus the number of true entries of the column mask equals n,
whatever the marked lines are. -/
theorem C6_optimality_criterion (n : ℕ) (rm cm : List Bool)
    (hr : rm.length = n) (hc : cm.length = n) :
    (is_optimal_assignment_shaped K rm cm = some true
      ↔ count_true rm + count_true cm = n) := by
  rw [is_optimal_assignment_shaped, if_pos (hr.trans hc.symm), Option.some_inj,
    decide_eq_true_eq, sum_boolToK, sum_boolToK, hr]
  constructor
  · intro h; exact_mod_cast h.symm
  · intro h; exact_mod_cast h.symm

/-- Witness for C6 at n = 2 with one line marked in each mask. -/
theorem C6_optimality_criterion_witness :
    (is_optimal_assignment_shaped ℤ [true, false] [true, false] = some true
      ↔ count_true [true, false] + count_true [true, false] = 2) :=
  C6_optimality_criterion 2 [true, false] [true, false] rfl rfl

/- Precondition handling. -/

/-- The all-NaN 1-by-1 matrix. -/
def nan_matrix : MatF 1 1 := fun _ _ => FV.nan

/-- C9 counterexample: a matrix containing non-finite values is not signaled
at entry of reduce_rows; the reducer runs its arithmetic and returns the NaN
matrix unchanged instead of failing. -/
theorem C9_counterexample : reduce_rows_f nan_matrix = nan_matrix := by
  funext i j
  rfl

/-- C9 as amended: a mask-shape mismatch is signaled at entry of
is_optimal_assignment by its assert (and a non-square matrix surfaces through
the same assert when the reduction loop first tests its masks), but a matrix
containing non-finite values is never checked: reduce_rows propagates NaN
entries and returns normally. -/
theorem C9_failfast_amended :
    (∀ rm cm : List Bool, rm.length ≠ cm.length →
      is_optimal_assignment_shaped K rm cm = none) ∧
    (∀ r c : ℕ, ∀ M : MatF r c, ∀ i j, M i j = FV.nan → reduce_rows_f M i j = FV.nan) := by
  constructor
  · intro rm cm h
    rw [is_optimal_assignment_shaped, if_neg h]
  · intro r c M i j h
    show FV.sub (M i j) (listMinFV ((List.finRange c).map (M i))) = FV.nan
    rw [h]
    rfl

/-- Witness for the amended C9: a length-mismatched mask pair yields the
assert failure, and the NaN matrix flows through reduce_rows. -/
theorem C9_failfast_amended_witness :
    is_optimal_assignment_shaped ℤ [true] [] = none ∧
    reduce_rows_f nan_matrix 0 0 = FV.nan :=
  ⟨(@C9_failfast_amended ℤ _).1 [true] [] (by decide),
   (@C9_failfast_amended ℤ _).2 1 1 nan_matrix 0 0 rfl⟩

/- The concrete 3-by-3 scenario. -/

set_option maxRecDepth 8000

/-- The 3-by-3 input matrix of the concrete scenario. -/
def C1_input : Mat ℤ 3 3 := ![![30, 25, 10], ![15, 10, 20], ![25, 20, 15]]

/-- C1 counterexample: the column reduction of the row-reduced scenario matrix
is not the matrix stated by the claim (the stated matrix is reduce_cols
applied to the original input rather than to the row-reduced one: row 2
actually comes out as 5, 5, 0, not 10, 10, 5). -/
theorem C1_counterexample :
    ¬ showMat (reduce_cols (reduce_rows C1_input))
        = [[15, 15, 0], [0, 0, 10], [10, 10, 5]] := by
  decide

/-- C1 as amended: on the 3-by-3 input, reduce_rows gives the stated row
reduction; reduce_cols then gives 15 15 0 / 0 0 10 / 5 5 0; scratch_matrix on
that matrix yields row mask false-true-false and column mask
false-false-true, 2 covering lines, not optimal; shift_zeros has delta 5 and
produces 10 10 0 / 0 0 15 / 0 0 0; and reduce_matrix on the input terminates
(two passes of the loop body suffice) returning that same matrix. -/
theorem C1_concrete_scenario :
    showMat (reduce_rows C1_input) = [[20, 15, 0], [5, 0, 10], [10, 5, 0]] ∧
    showMat (reduce_cols (reduce_rows C1_input)) = [[15, 15, 0], [0, 0, 10], [5, 5, 0]] ∧
    (scratch_matrix 9 (reduce_cols (reduce_rows C1_input))).map
        (fun p => (showMask p.1, showMask p.2))
      = some ([false, true, false], [false, false, true]) ∧
    is_optimal_assignment ℤ (![false, true, false]) (![false, false, true]) = false ∧
    count_true [false, true, false] + count_true [false, false, true] = 2 ∧
    outline_min_value (reduce_cols (reduce_rows C1_input))
        (![false, true, false]) (![false, false, true]) = 5 ∧
    showMat (shift_zeros (reduce_cols (reduce_rows C1_input))
        (![false, true, false]) (![false, false, true])).1
      = [[10, 10, 0], [0, 0, 15], [0, 0, 0]] ∧
    (reduce_matrix 2 C1_input).map showMat = some [[10, 10, 0], [0, 0, 15], [0, 0, 0]] :=
  ⟨by decide, by decide, by decide, by decide, by decide, by decide, by decide, by decide⟩

/- Nontermination of the reduction loop. -/

/-- A 4-by-4 zero-one matrix on which the reduction loop never terminates. -/
def C2_input : Mat ℤ 4 4 := ![![0, 0, 0, 0], ![0, 0, 1, 1], ![0, 1, 0, 1], ![1, 0, 1, 0]]

/-- The matrix after the degenerate shift: the sentinel has been added to all
of row 0. -/
def C2_shifted : Mat ℤ 4 4 :=
  ![![65504, 65504, 65504, 65504], ![0, 0, 1, 1], ![0, 1, 0, 1], ![1, 0, 1, 0]]

/-- The row mask built by the greedy cover on C2_input: row 0 only. -/
def C2_rm : Fin 4 → Bool := ![true, false, false, false]

/-- The column mask built by the greedy cover on C2_input: all columns. -/
def C2_cm : Fin 4 → Bool := ![true, true, true, true]

theorem C2_reduce_input : reduce_cols (reduce_rows C2_input) = C2_input := by
  funext i j
  fin_cases i <;> fin_cases j <;> decide

theorem C2_reduce_shifted : reduce_cols (reduce_rows C2_shifted) = C2_input := by
  funext i j
  fin_cases i <;> fin_cases j <;> decide

theorem C2_scratch_run : scratch_matrix (4 * 4) C2_input = some (C2_rm, C2_cm) := by
  have e : scratch_matrix (4 * 4) C2_input
      = some ((scratch_matrix (4 * 4) C2_input).getD (C2_rm, C2_cm)) := rfl
  rw [e]
  congr 1
  refine Prod.ext ?_ ?_
  · funext i; fin_cases i <;> decide
  · funext j; fin_cases j <;> decide

theorem C2_not_optimal : is_optimal_assignment ℤ C2_rm C2_cm = false := by decide

theorem C2_shift_run : shift_zeros C2_input C2_rm C2_cm = (C2_shifted, C2_rm, C2_cm) := by
  refine Prod.ext ?_ (Prod.ext rfl rfl)
  funext i j
  fin_cases i <;> fin_cases j <;> decide

theorem C2_loop_stuck_step (f : ℕ) :
    reduce_loop (K := ℤ) (f + 1) C2_shifted C2_rm C2_cm
      = reduce_loop f C2_shifted C2_rm C2_cm := by
  rw [reduce_loop, C2_not_optimal]
  simp only [Bool.false_eq_true, if_false, C2_reduce_shifted, C2_scratch_run,
    C2_not_optimal, C2_shift_run]

theorem C2_loop_stuck : ∀ f : ℕ, reduce_loop (K := ℤ) f C2_shifted C2_rm C2_cm = none := by
  intro f
  induction f with
  | zero => rw [reduce_loop, C2_not_optimal]; simp
  | succ f ih => rw [C2_loop_stuck_step]; exact ih

/-- C2 is false of the code: on the finite square matrix C2_input the greedy
cover scratches five lines (row 0 and all four columns), the cover is not
optimal yet leaves no outline cell, the shift step adds the float16.max
sentinel to row 0, and the next row reduction restores C2_input exactly; the
loop state repeats forever and reduce_matrix never terminates, returning
none for every fuel bound, in particular for n * n = 16 iterations. -/
theorem C2_nontermination : ∀ fuel : ℕ, reduce_matrix fuel C2_input = none := by
  intro fuel
  cases fuel with
  | zero =>
    rw [reduce_matrix, reduce_loop]
    simp only [show is_optimal_assignment ℤ (fun _ : Fin 4 => false) (fun _ : Fin 4 => false)
        = false from by decide, Bool.false_eq_true, if_false]
  | succ f =>
    rw [reduce_matrix, reduce_loop]
    simp only [show is_optimal_assignment ℤ (fun _ : Fin 4 => false) (fun _ : Fin 4 => false)
        = false from by decide, Bool.false_eq_true, if_false, C2_reduce_input,
      C2_scratch_run, C2_not_optimal, C2_shift_run]
    exact C2_loop_stuck f

end HungarianLoss
